import Mathlib

/-!
Shallow embedding of `xray_vision/mask/manual_mask.py`.

A numpy boolean array of shape `(h, w)` is modelled as a list of `h` rows,
each a list of `w` booleans.  The `ManualMask` object keeps the mask-relevant
mutable state: the bound image shape, the current drawing sign, the `regions`
and `holes` stroke lists and the `_undo_list` (one entry per recorded stroke;
in the source each entry is a reference to either the `regions` list or the
`holes` list, which we represent by a tag: `true` for `regions`, `false` for
`holes`).  GUI-only state (axes, canvas, patches) is out of scope.

Python mutation is made explicit: each operation returns the new state
together with `Option` of its result, `none` meaning the Python call raised.
One behaviour needs care: `np.logical_or(*arrays)` with three arrays passes
the third as the ufunc `out` parameter (the result `arrays[0] OR arrays[1]`
is written into that third array's buffer and returned), and with four or
more arrays raises `TypeError`.  `flexible_or` therefore returns the possibly
mutated list together with the returned array, or `none` when it raises.
-/

namespace XrayVision

/-- A 2-d boolean pixel array, as a list of rows. -/
abbrev Arr : Type := List (List Bool)

/-- A 2-d numeric pixel array (`label_by_stroke` output), as a list of rows. -/
abbrev NArr : Type := List (List Nat)

/-- An array shape `(rows, cols)`. -/
abbrev Shape : Type := Nat × Nat

/-- `np.zeros(shape, dtype=bool)`. -/
def zeros (sh : Shape) : Arr :=
  List.replicate sh.1 (List.replicate sh.2 false)

/-- `np.zeros(shape)` used as the numeric result buffer of `label_by_stroke`. -/
def zerosN (sh : Shape) : NArr :=
  List.replicate sh.1 (List.replicate sh.2 0)

/-- Elementwise `np.logical_or` of two same-shaped arrays. -/
def orArr (a b : Arr) : Arr :=
  List.zipWith (List.zipWith Bool.or) a b

/-- Elementwise `a & ~b` of two same-shaped boolean arrays. -/
def andNot (a b : Arr) : Arr :=
  List.zipWith (List.zipWith (fun x y => x && !y)) a b

/-- `a.shape == sh` for a well-formed 2-d array. -/
def hasShape (a : Arr) (sh : Shape) : Bool :=
  a.length == sh.1 && a.all (fun row => row.length == sh.2)

/-- `a.shape` of a (well-formed) 2-d array. -/
def shapeOf (a : Arr) : Shape :=
  (a.length, (a.headD []).length)

/-- `result[reg] = v`: boolean-mask assignment into a numeric array. -/
def setWhere (res : NArr) (reg : Arr) (v : Nat) : NArr :=
  List.zipWith (List.zipWith (fun x b => if b then v else x)) res reg

/-- `flat.reshape(sh)`: `ValueError` (`none`) unless the sizes agree. -/
def chunkRows (w : Nat) : Nat → List Bool → Arr
  | 0, _ => []
  | h + 1, flat => flat.take w :: chunkRows w h (flat.drop w)

/-- `flat.reshape(sh)` for a flat boolean array. -/
def reshape (flat : List Bool) (sh : Shape) : Option Arr :=
  if flat.length = sh.1 * sh.2 then some (chunkRows sh.2 sh.1 flat) else none

/-- `flexible_or(arrays, shape)`.  Returns the (possibly mutated) input list
together with the returned array; `none` when the call raises.  With three
arrays `np.logical_or(a, b, c)` passes `c` as the `out` buffer: it stores
`a OR b` into `c` and returns it; with four or more arrays the ufunc call
raises `TypeError`. -/
def flexible_or (arrays : List Arr) (shape : Shape) : Option (List Arr × Arr) :=
  match arrays with
  | [] => some ([], zeros shape)
  | [a] => some ([a], a)
  | [a, b] => some ([a, b], orArr a b)
  | [a, b, _] => some ([a, b, orArr a b], orArr a b)
  | _ => none

/-- The mask-relevant state of a `ManualMask` object. -/
structure ManualMask where
  img_shape : Shape
  sign : Bool
  regions : List Arr
  holes : List Arr
  _undo_list : List Bool
deriving DecidableEq

/-- The `mask` property:
`flexible_or(self.regions, self.img_shape) & ~flexible_or(self.holes, self.img_shape)`.
Returns the state after the read (the two `flexible_or` calls can mutate the
stroke lists) and the computed array, `none` when a `flexible_or` call raises. -/
def ManualMask.mask (s : ManualMask) : ManualMask × Option Arr :=
  match flexible_or s.regions s.img_shape with
  | none => (s, none)
  | some (regs, r) =>
    match flexible_or s.holes s.img_shape with
    | none => ({ s with regions := regs }, none)
    | some (hs, h) => ({ s with regions := regs, holes := hs }, some (andNot r h))

/-- `call_back(self, verts)`, with the external geometry primitive
`p.contains_points(self.points)` abstracted as the incoming flat membership
array.  The source computes
`is_contained = p.contains_points(self.points).reshape(self.mask.shape)`,
so the `mask` property is evaluated (with its state effects) before the
reshape, and only then is the stroke appended to `regions` or `holes`
according to `sign`, with the destination recorded in `_undo_list`. -/
def ManualMask.call_back (s : ManualMask) (is_contained_flat : List Bool) :
    ManualMask × Option Unit :=
  match s.mask with
  | (s1, none) => (s1, none)
  | (s1, some m) =>
    match reshape is_contained_flat (shapeOf m) with
    | none => (s1, none)
    | some is_contained =>
      if s1.sign then
        ({ s1 with regions := s1.regions ++ [is_contained],
                   _undo_list := s1._undo_list ++ [true] },
         some ())
      else
        ({ s1 with holes := s1.holes ++ [is_contained],
                   _undo_list := s1._undo_list ++ [false] },
         some ())

/-- `undo(self)`: `self._undo_list.pop().pop()`.  The first `pop` removes the
last `_undo_list` entry (raising `IndexError`, i.e. `none`, when it is empty);
the second `pop` removes the last element of the referenced stroke list
(raising when that list is empty, after `_undo_list` was already popped). -/
def ManualMask.undo (s : ManualMask) : ManualMask × Option Unit :=
  match s._undo_list.getLast? with
  | none => (s, none)
  | some t =>
    if t then
      match s.regions.getLast? with
      | none => ({ s with _undo_list := s._undo_list.dropLast }, none)
      | some _ =>
        ({ s with _undo_list := s._undo_list.dropLast,
                  regions := s.regions.dropLast }, some ())
    else
      match s.holes.getLast? with
      | none => ({ s with _undo_list := s._undo_list.dropLast }, none)
      | some _ =>
        ({ s with _undo_list := s._undo_list.dropLast,
                  holes := s.holes.dropLast }, some ())

/-- `key_press_callback(self, event)` for a key event:
`r` switches to subtract mode, `a` to add mode, `z` calls `undo`. -/
def ManualMask.key_press_callback (s : ManualMask) (key : Char) :
    ManualMask × Option Unit :=
  if key = 'r' then ({ s with sign := false }, some ())
  else if key = 'a' then ({ s with sign := true }, some ())
  else if key = 'z' then s.undo
  else (s, some ())

/-- The `label_by_stroke` property: paint `result[reg] = i + 1` over the
regions in insertion order into a zero array, then zero out the pixels of
`flexible_or(self.holes, self.img_shape)` (which can mutate `holes` or
raise, exactly as in `mask`). -/
def ManualMask.label_by_stroke (s : ManualMask) : ManualMask × Option NArr :=
  let painted :=
    (s.regions.enum).foldl (fun acc p => setWhere acc p.2 (p.1 + 1))
      (zerosN s.img_shape)
  match flexible_or s.holes s.img_shape with
  | none => (s, none)
  | some (hs, h) => ({ s with holes := hs }, some (setWhere painted h 0))

/-- `__init__`: fresh accumulator bound to an image shape, in add mode. -/
def init (image_shape : Shape) : ManualMask :=
  { img_shape := image_shape, sign := true, regions := [], holes := [],
    _undo_list := [] }

/-- An externally delivered event: a completed stroke (with its flat
membership array) or a key press. -/
inductive Event where
  | stroke (flat : List Bool)
  | key (c : Char)

/-- Apply one event to the state (exceptions discard the result but keep the
state reached). -/
def stepEvent (s : ManualMask) : Event → ManualMask
  | .stroke f => (s.call_back f).1
  | .key c => (s.key_press_callback c).1

/-- Run a sequence of events from a state. -/
def runEvents (s : ManualMask) (es : List Event) : ManualMask :=
  es.foldl stepEvent s

/-- The coupling between `_undo_list` and the two stroke lists: the number of
`regions` tags equals the number of regions, likewise for `holes`. -/
def histInv (s : ManualMask) : Prop :=
  s._undo_list.countP (fun b => b) = s.regions.length ∧
  s._undo_list.countP (fun b => !b) = s.holes.length

/-- Spec-side definition of OR-reduce, following the spec's words:
elementwise logical OR across all elements of the list, the empty case
giving the all-`False` array of the image shape. -/
def or_reduce_spec (arrays : List Arr) (shape : Shape) : Arr :=
  arrays.foldr orArr (zeros shape)

/-- A state holding three add strokes on a 1-by-1 image; the third stroke is
the only one containing the pixel. -/
def threeRegions : ManualMask :=
  ⟨(1, 1), true, [[[false]], [[false]], [[true]]], [], [true, true, true]⟩

/-- A state with one region covering the pixel and three subtract strokes of
which only the third contains the pixel, on a 1-by-1 image. -/
def oneRegionThreeHoles : ManualMask :=
  ⟨(1, 1), true, [[[true]]], [[[false]], [[false]], [[true]]],
    [true, false, false, false]⟩

/-- A state with regions `A`, `B` and one hole `C` on a 1-by-1 image. -/
def twoRegionsOneHole : ManualMask :=
  ⟨(1, 1), true, [[[true]], [[false]]], [[[false]]], [true, true, false]⟩

/- ======================  theorems  ====================== -/

theorem flexible_or_length {l l' : List Arr} {sh : Shape} {r : Arr}
    (h : flexible_or l sh = some (l', r)) : l'.length = l.length := by
  rcases l with _ | ⟨a, _ | ⟨b, _ | ⟨c, _ | ⟨d, t⟩⟩⟩⟩ <;>
    simp only [flexible_or, Option.some.injEq, Prod.mk.injEq,
      reduceCtorEq] at h <;>
  · obtain ⟨h1, -⟩ := h
    subst h1
    rfl

theorem flexible_or_ge4 (l : List Arr) (sh : Shape) (h : 4 ≤ l.length) :
    flexible_or l sh = none := by
  rcases l with _ | ⟨a, _ | ⟨b, _ | ⟨c, _ | ⟨d, t⟩⟩⟩⟩
  · simp at h
  · simp at h
  · simp at h
  · simp at h
  · rfl

theorem mask_fields (s : ManualMask) :
    (s.mask).1.img_shape = s.img_shape ∧ (s.mask).1.sign = s.sign ∧
    (s.mask).1._undo_list = s._undo_list ∧
    (s.mask).1.regions.length = s.regions.length ∧
    (s.mask).1.holes.length = s.holes.length := by
  unfold ManualMask.mask
  cases h1 : flexible_or s.regions s.img_shape with
  | none => simp
  | some p =>
    obtain ⟨regs, r⟩ := p
    cases h2 : flexible_or s.holes s.img_shape with
    | none => simp [flexible_or_length h1]
    | some q =>
      obtain ⟨hs, hh⟩ := q
      simp [flexible_or_length h1, flexible_or_length h2]

theorem call_back_histInv (s : ManualMask) (f : List Bool) (h : histInv s) :
    histInv (s.call_back f).1 := by
  have hf := mask_fields s
  unfold ManualMask.call_back
  split
  next s1 heq =>
    rw [heq] at hf
    have hul : s1._undo_list = s._undo_list := hf.2.2.1
    have hreg : s1.regions.length = s.regions.length := hf.2.2.2.1
    have hhol : s1.holes.length = s.holes.length := hf.2.2.2.2
    exact ⟨by rw [hul, hreg]; exact h.1, by rw [hul, hhol]; exact h.2⟩
  next s1 m heq =>
    rw [heq] at hf
    have hul : s1._undo_list = s._undo_list := hf.2.2.1
    have hreg : s1.regions.length = s.regions.length := hf.2.2.2.1
    have hhol : s1.holes.length = s.holes.length := hf.2.2.2.2
    have h1 : histInv s1 :=
      ⟨by rw [hul, hreg]; exact h.1, by rw [hul, hhol]; exact h.2⟩
    split
    · exact h1
    · split
      · simp [histInv, List.countP_append, List.countP_cons, h1.1, h1.2]
      · simp [histInv, List.countP_append, List.countP_cons, h1.1, h1.2]

theorem undo_histInv (s : ManualMask) (h : histInv s) : histInv (s.undo).1 := by
  unfold ManualMask.undo
  cases hl : s._undo_list.getLast? with
  | none => exact h
  | some t =>
    have hmem : t ∈ s._undo_list.getLast? := by rw [hl]; rfl
    have hsplit : s._undo_list = s._undo_list.dropLast ++ [t] :=
      (List.dropLast_append_getLast? t hmem).symm
    obtain ⟨hc1, hc2⟩ := h
    rw [hsplit, List.countP_append] at hc1 hc2
    cases t with
    | true =>
      rw [show List.countP (fun b => b) [true] = 1 from rfl] at hc1
      rw [show List.countP (fun b => !b) [true] = 0 from rfl] at hc2
      cases hr : s.regions.getLast? with
      | none =>
        rw [List.getLast?_eq_none_iff] at hr
        rw [hr] at hc1
        simp at hc1
      | some x =>
        refine ⟨?_, ?_⟩
        · show List.countP (fun b => b) s._undo_list.dropLast =
            s.regions.dropLast.length
          rw [List.length_dropLast]
          omega
        · show List.countP (fun b => !b) s._undo_list.dropLast = s.holes.length
          omega
    | false =>
      rw [show List.countP (fun b => b) [false] = 0 from rfl] at hc1
      rw [show List.countP (fun b => !b) [false] = 1 from rfl] at hc2
      cases hr : s.holes.getLast? with
      | none =>
        rw [List.getLast?_eq_none_iff] at hr
        rw [hr] at hc2
        simp at hc2
      | some x =>
        refine ⟨?_, ?_⟩
        · show List.countP (fun b => b) s._undo_list.dropLast = s.regions.length
          omega
        · show List.countP (fun b => !b) s._undo_list.dropLast =
            s.holes.dropLast.length
          rw [List.length_dropLast]
          omega

theorem key_press_histInv (s : ManualMask) (k : Char) (h : histInv s) :
    histInv (s.key_press_callback k).1 := by
  unfold ManualMask.key_press_callback
  split
  · exact h
  · split
    · exact h
    · split
      · exact undo_histInv s h
      · exact h

theorem stepEvent_histInv (s : ManualMask) (e : Event) (h : histInv s) :
    histInv (stepEvent s e) := by
  cases e with
  | stroke f => exact call_back_histInv s f h
  | key c => exact key_press_histInv s c h

theorem runEvents_histInv (es : List Event) :
    ∀ (s : ManualMask), histInv s → histInv (runEvents s es) := by
  induction es with
  | nil => intro s h; exact h
  | cons e t ih => intro s h; exact ih (stepEvent s e) (stepEvent_histInv s e h)

theorem countP_bool_split (l : List Bool) :
    l.countP (fun b => b) + l.countP (fun b => !b) = l.length := by
  induction l with
  | nil => rfl
  | cons a t ih => cases a <;> simp [List.countP_cons] <;> omega

theorem zipWith_false_right (f : Bool → Bool → Bool) (hf : ∀ x, f x false = x) :
    ∀ (row : List Bool) (w : Nat), row.length = w →
      List.zipWith f row (List.replicate w false) = row := by
  intro row
  induction row with
  | nil => intro w h; simp
  | cons a t ih =>
    intro w h
    cases w with
    | zero => simp at h
    | succ n =>
      rw [List.replicate_succ, List.zipWith_cons_cons, hf,
        ih n (by simpa using h)]

theorem zipWith_zeros_right (f : Bool → Bool → Bool) (hf : ∀ x, f x false = x) :
    ∀ (a : Arr) (hh ww : Nat), a.length = hh →
      (∀ row ∈ a, row.length = ww) →
      List.zipWith (List.zipWith f) a
        (List.replicate hh (List.replicate ww false)) = a := by
  intro a
  induction a with
  | nil => intro hh ww h1 h2; simp
  | cons r t ih =>
    intro hh ww h1 h2
    cases hh with
    | zero => simp at h1
    | succ n =>
      rw [List.replicate_succ, List.zipWith_cons_cons,
        zipWith_false_right f hf r ww (h2 r (by simp)),
        ih n ww (by simpa using h1) (fun row hr => h2 row (by simp [hr]))]

theorem hasShape_spec {a : Arr} {sh : Shape} (h : hasShape a sh = true) :
    a.length = sh.1 ∧ ∀ row ∈ a, row.length = sh.2 := by
  simpa [hasShape, List.all_eq_true] using h

theorem orArr_zeros (a : Arr) (sh : Shape) (h : hasShape a sh = true) :
    orArr a (zeros sh) = a := by
  obtain ⟨h1, h2⟩ := hasShape_spec h
  exact zipWith_zeros_right Bool.or (fun x => Bool.or_false x) a sh.1 sh.2 h1 h2

theorem andNot_zeros (a : Arr) (sh : Shape) (h : hasShape a sh = true) :
    andNot a (zeros sh) = a := by
  obtain ⟨h1, h2⟩ := hasShape_spec h
  exact zipWith_zeros_right (fun x y => x && !y) (fun x => by simp) a sh.1 sh.2
    h1 h2

theorem zeros_hasShape (sh : Shape) : hasShape (zeros sh) sh = true := by
  simp only [hasShape, zeros, Bool.and_eq_true, beq_iff_eq,
    List.length_replicate, List.all_eq_true]
  refine ⟨trivial, fun row hrow => ?_⟩
  rw [List.eq_of_mem_replicate hrow]
  simp

theorem flexible_or_small (l : List Arr) (sh : Shape)
    (hlen : l.length ≤ 2) (hsh : ∀ a ∈ l, hasShape a sh = true) :
    flexible_or l sh = some (l, or_reduce_spec l sh) := by
  rcases l with _ | ⟨a, _ | ⟨b, _ | ⟨c, t⟩⟩⟩
  · rfl
  · simp [flexible_or, or_reduce_spec, orArr_zeros a sh (hsh a (by simp))]
  · simp [flexible_or, or_reduce_spec, orArr_zeros b sh (hsh b (by simp))]
  · simp at hlen

/-- C1: recording four add strokes and undoing once does not return to the
three-stroke state: during the fourth stroke's `call_back`, evaluating
`self.mask.shape` runs `flexible_or` on the three accumulated regions, which
overwrites the third region with the OR of the first two (it is passed to
`np.logical_or` as the `out` buffer), so after `undo` the third stored stroke
differs from the one that was drawn.  All four recordings and the undo
itself succeed, and the two histories agree; only a stored stroke array was
silently changed. -/
theorem c1_undo_after_four_strokes_bug :
    ((runEvents (init (1, 1)) [Event.stroke [false], Event.stroke [false],
        Event.stroke [true], Event.stroke [false]]).undo).2 = some () ∧
    ((runEvents (init (1, 1)) [Event.stroke [false], Event.stroke [false],
        Event.stroke [true], Event.stroke [false]]).undo).1._undo_list =
      (runEvents (init (1, 1)) [Event.stroke [false], Event.stroke [false],
        Event.stroke [true]])._undo_list ∧
    ((runEvents (init (1, 1)) [Event.stroke [false], Event.stroke [false],
        Event.stroke [true], Event.stroke [false]]).undo).1.regions ≠
      (runEvents (init (1, 1)) [Event.stroke [false], Event.stroke [false],
        Event.stroke [true]]).regions := by
  decide

/-- C2: `flexible_or` on three arrays does not compute the elementwise OR of
all three: `np.logical_or(A, B, C)` passes `C` as the ufunc `out` parameter,
so the call returns `A OR B` and overwrites the stored `C` with it, while
the elementwise OR across all three elements (the spec's OR-reduce) is
`[[true]]` here. -/
theorem c2_flexible_or_three_arrays_bug :
    flexible_or [[[false]], [[false]], [[true]]] (1, 1) =
      some ([[[false]], [[false]], [[false]]], [[false]]) ∧
    or_reduce_spec [[[false]], [[false]], [[true]]] (1, 1) = [[true]] := by
  decide

/-- C3: reading the `mask` view is not state-preserving: on a state whose
`regions` list holds exactly three strokes, the read overwrites the third
stored stroke array with the OR of the first two (the `np.logical_or` `out`
parameter), so the state after the read differs from the state before. -/
theorem c3_mask_read_mutates_state_bug :
    (threeRegions.mask).1 ≠ threeRegions ∧
    (threeRegions.mask).1.regions = [[[false]], [[false]], [[false]]] ∧
    threeRegions.regions = [[[false]], [[false]], [[true]]] := by
  decide

/-- C4: a stroke whose flat membership array cannot be reshaped to the bound
image shape is rejected, but not without mutation: before the reshape,
`call_back` evaluates `self.mask.shape`, and on a state with exactly three
regions that read overwrites the third stored region, so `regions` is
changed even though the add fails.  (`history` is left unchanged.) -/
theorem c4_shape_mismatch_partial_mutation_bug :
    (threeRegions.call_back [true, true]).2 = none ∧
    (threeRegions.call_back [true, true]).1._undo_list =
      threeRegions._undo_list ∧
    (threeRegions.call_back [true, true]).1.holes = threeRegions.holes ∧
    (threeRegions.call_back [true, true]).1.regions ≠
      threeRegions.regions := by
  decide

/-- C5: `undo` on a state with empty history fails (the first `pop` raises
`IndexError`) and returns the state completely unchanged. -/
theorem c5_undo_empty_history (s : ManualMask) (h : s._undo_list = []) :
    s.undo = (s, none) := by
  unfold ManualMask.undo
  rw [h]
  rfl

theorem c5_witness : (init (2, 2)).undo = (init (2, 2), none) :=
  c5_undo_empty_history (init (2, 2)) rfl

/-- C6: after any sequence of externally delivered events (strokes with any
interleaving of signs, key presses switching the sign or triggering undo)
applied to a freshly constructed accumulator, the length of the undo history
equals the number of regions plus the number of holes. -/
theorem c6_history_length_invariant (image_shape : Shape) (es : List Event) :
    (runEvents (init image_shape) es)._undo_list.length =
      (runEvents (init image_shape) es).regions.length +
        (runEvents (init image_shape) es).holes.length := by
  obtain ⟨h1, h2⟩ := runEvents_histInv es (init image_shape) ⟨rfl, rfl⟩
  rw [← h1, ← h2]
  exact (countP_bool_split _).symm

theorem c6_witness :
    (runEvents (init (1, 1)) [Event.stroke [true], Event.key 'r',
      Event.stroke [true], Event.key 'z'])._undo_list.length =
      (runEvents (init (1, 1)) [Event.stroke [true], Event.key 'r',
        Event.stroke [true], Event.key 'z']).regions.length +
        (runEvents (init (1, 1)) [Event.stroke [true], Event.key 'r',
          Event.stroke [true], Event.key 'z']).holes.length :=
  c6_history_length_invariant (1, 1) [Event.stroke [true], Event.key 'r',
    Event.stroke [true], Event.key 'z']

/-- C7: when `regions` and `holes` each hold at most two same-shaped strokes,
the `mask` view equals OR-reduce over the regions AND NOT OR-reduce over the
holes (with the spec's OR-reduce), and in particular: with no strokes it is
the all-`False` array of the bound shape, with one region and no holes it is
that region's array exactly, and with regions `A`, `B` and hole `C` it is
`(A OR B) AND NOT C`.  The read succeeds and leaves the state unchanged. -/
theorem c7_mask_small_cases (s : ManualMask)
    (hr : s.regions.all (fun a => hasShape a s.img_shape) = true)
    (hh : s.holes.all (fun a => hasShape a s.img_shape) = true)
    (hr2 : s.regions.length ≤ 2) (hh2 : s.holes.length ≤ 2) :
    s.mask = (s, some (andNot (or_reduce_spec s.regions s.img_shape)
        (or_reduce_spec s.holes s.img_shape))) ∧
    (s.regions = [] → s.holes = [] →
      (s.mask).2 = some (zeros s.img_shape)) ∧
    (∀ A, s.regions = [A] → s.holes = [] → (s.mask).2 = some A) ∧
    (∀ A B C, s.regions = [A, B] → s.holes = [C] →
      (s.mask).2 = some (andNot (orArr A B) C)) := by
  have hr' : ∀ a ∈ s.regions, hasShape a s.img_shape = true := by
    simpa [List.all_eq_true] using hr
  have hh' : ∀ a ∈ s.holes, hasShape a s.img_shape = true := by
    simpa [List.all_eq_true] using hh
  have h1 := flexible_or_small s.regions s.img_shape hr2 hr'
  have h2 := flexible_or_small s.holes s.img_shape hh2 hh'
  have hmask : s.mask = (s, some (andNot
      (or_reduce_spec s.regions s.img_shape)
      (or_reduce_spec s.holes s.img_shape))) := by
    simp only [ManualMask.mask, h1, h2]
  refine ⟨hmask, ?_, ?_, ?_⟩
  · intro hre hho
    rw [hmask, hre, hho]
    simp only [or_reduce_spec, List.foldr_nil]
    rw [andNot_zeros (zeros s.img_shape) s.img_shape
      (zeros_hasShape s.img_shape)]
  · intro A hre hho
    have hA : hasShape A s.img_shape = true := hr' A (by rw [hre]; simp)
    rw [hmask, hre, hho]
    simp only [or_reduce_spec, List.foldr_cons, List.foldr_nil]
    rw [orArr_zeros A s.img_shape hA, andNot_zeros A s.img_shape hA]
  · intro A B C hre hho
    have hB : hasShape B s.img_shape = true := hr' B (by rw [hre]; simp)
    have hC : hasShape C s.img_shape = true := hh' C (by rw [hho]; simp)
    rw [hmask, hre, hho]
    simp only [or_reduce_spec, List.foldr_cons, List.foldr_nil]
    rw [orArr_zeros B s.img_shape hB, orArr_zeros C s.img_shape hC]

theorem c7_witness :
    (twoRegionsOneHole.mask = (twoRegionsOneHole,
      some (andNot
        (or_reduce_spec twoRegionsOneHole.regions twoRegionsOneHole.img_shape)
        (or_reduce_spec twoRegionsOneHole.holes
          twoRegionsOneHole.img_shape)))) ∧
    (twoRegionsOneHole.regions = [] → twoRegionsOneHole.holes = [] →
      (twoRegionsOneHole.mask).2 = some (zeros twoRegionsOneHole.img_shape)) ∧
    (∀ A, twoRegionsOneHole.regions = [A] → twoRegionsOneHole.holes = [] →
      (twoRegionsOneHole.mask).2 = some A) ∧
    (∀ A B C, twoRegionsOneHole.regions = [A, B] →
      twoRegionsOneHole.holes = [C] →
      (twoRegionsOneHole.mask).2 = some (andNot (orArr A B) C)) :=
  c7_mask_small_cases twoRegionsOneHole (by decide) (by decide) (by decide)
    (by decide)

/-- C8: `label_by_stroke` does not force every pixel of the holes' OR-reduce
back to label 0: with three holes, `flexible_or` zeroes only the pixels of
the first two holes' OR (the third hole is consumed as the `np.logical_or`
`out` buffer), so a pixel covered by a region and only by the third hole
keeps its region label even though the spec-side OR-reduce of the holes is
`True` there. -/
theorem c8_label_by_stroke_holes_bug :
    (oneRegionThreeHoles.label_by_stroke).2 = some [[1]] ∧
    or_reduce_spec oneRegionThreeHoles.holes oneRegionThreeHoles.img_shape =
      [[true]] := by
  decide

/-- C9: a sign-changing key press (`r` or `a`) changes only the `sign` flag:
`regions`, `holes`, the undo history and the bound shape are untouched, so
every stroke recorded earlier stays in the list it was appended to. -/
theorem c9_set_sign_only_changes_sign (s : ManualMask) (k : Char)
    (h : k = 'r' ∨ k = 'a') :
    (s.key_press_callback k).1.regions = s.regions ∧
    (s.key_press_callback k).1.holes = s.holes ∧
    (s.key_press_callback k).1._undo_list = s._undo_list ∧
    (s.key_press_callback k).1.img_shape = s.img_shape ∧
    (s.key_press_callback k).1.sign = (k == 'a') := by
  rcases h with h | h <;> subst h <;>
    simp [ManualMask.key_press_callback]

theorem c9_witness :
    ((init (3, 3)).key_press_callback 'r').1.regions = (init (3, 3)).regions ∧
    ((init (3, 3)).key_press_callback 'r').1.holes = (init (3, 3)).holes ∧
    ((init (3, 3)).key_press_callback 'r').1._undo_list =
      (init (3, 3))._undo_list ∧
    ((init (3, 3)).key_press_callback 'r').1.img_shape =
      (init (3, 3)).img_shape ∧
    ((init (3, 3)).key_press_callback 'r').1.sign = ('r' == 'a') :=
  c9_set_sign_only_changes_sign (init (3, 3)) 'r' (Or.inl rfl)

/-- C10: `flexible_or` on a list of four or more arrays raises (the ufunc
`np.logical_or` accepts at most two inputs and one output); consequently
reading `mask` fails as soon as either `regions` or `holes` holds four or
more strokes, and reading `label_by_stroke` fails as soon as `holes` does. -/
theorem c10_flexible_or_four_raises :
    (∀ (l : List Arr) (sh : Shape), 4 ≤ l.length → flexible_or l sh = none) ∧
    (∀ s : ManualMask, 4 ≤ s.regions.length ∨ 4 ≤ s.holes.length →
      (s.mask).2 = none) ∧
    (∀ s : ManualMask, 4 ≤ s.holes.length →
      (s.label_by_stroke).2 = none) := by
  refine ⟨flexible_or_ge4, ?_, ?_⟩
  · intro s hs
    unfold ManualMask.mask
    rcases hs with hs | hs
    · rw [flexible_or_ge4 _ _ hs]
    · cases h1 : flexible_or s.regions s.img_shape with
      | none => rfl
      | some p =>
        obtain ⟨regs, r⟩ := p
        rw [flexible_or_ge4 _ _ hs]
  · intro s hs
    unfold ManualMask.label_by_stroke
    rw [flexible_or_ge4 _ _ hs]

theorem c10_witness :
    flexible_or [[[false]], [[false]], [[false]], [[false]]] (1, 1) = none ∧
    ((ManualMask.mk (1, 1) true
      [[[false]], [[false]], [[false]], [[false]]] []
      [true, true, true, true]).mask).2 = none ∧
    ((ManualMask.mk (1, 1) true []
      [[[false]], [[false]], [[false]], [[false]]]
      [false, false, false, false]).label_by_stroke).2 = none :=
  ⟨c10_flexible_or_four_raises.1 _ _ (by decide),
   c10_flexible_or_four_raises.2.1 _ (Or.inl (by decide)),
   c10_flexible_or_four_raises.2.2 _ (by decide)⟩

end XrayVision
